import Mathlib

/-!
Verification of the earthquake-sonification scheduling engine
(`useEarthquakeSonifier.ts`).

The TypeScript hook is shallowly embedded here:
* JS numbers that may be NaN are modelled by `JSNum`; all other numeric
  values are exact rationals (`ℚ`).  Floating-point rounding is not
  modelled: every arithmetic identity below is about the exact real
  arithmetic the source expresses.
* Web Audio `AudioParam` automation (`setValueAtTime`,
  `linearRampToValueAtTime`, `cancelScheduledValues`) is modelled as an
  explicit list of pending automation events plus a base value.
* Audio source nodes (`OscillatorNode`, `AudioBufferSourceNode`) are
  modelled by their scheduled start/stop times; `stop` before `start`
  throws, as in Web Audio, and the source's `try { … } catch {}` blocks
  become `tryStop`.
* The hook's refs (`audioCtxRef`, `droneRef`, `transientNodesRef`,
  `visualTimeoutsRef`, `endTimeoutRef`) and the `isPlaying` flag become
  fields of `EngineState`; `window.setTimeout`/`clearTimeout` act on an
  explicit queue of pending timers.
* An event-voice frequency `root * 2^(semis/12)` is irrational, so the
  embedding stores the integer semitone offset `semis` instead (the
  frequency is a strictly monotone function of it, and the claims only
  need its existence and ordering).
-/

set_option maxHeartbeats 1000000

namespace EarthMusic

/-- A JavaScript number that may be `NaN`.  Finite values are exact
rationals. -/
inductive JSNum
  | nan
  | num (q : ℚ)
deriving DecidableEq

/-- JS `x || 0`: `NaN` and `0` are falsy, every other number is itself
(`0 || 0 = 0`, so the numeric branch may return `q` unconditionally). -/
def jsOr0 : JSNum → ℚ
  | .nan => 0
  | .num q => q

/-- Core of `mapRange` on a non-NaN value, exactly as in the source:
`clamped = Math.min(inMax, Math.max(inMin, value))`,
`norm = inMax === inMin ? 0 : (clamped - inMin) / (inMax - inMin)`,
result `outMin + norm * (outMax - outMin)`. -/
def mapRangeQ (value inMin inMax outMin outMax : ℚ) : ℚ :=
  let clamped := min inMax (max inMin value)
  let norm := if inMax = inMin then 0 else (clamped - inMin) / (inMax - inMin)
  outMin + norm * (outMax - outMin)

/-- `mapRange` from the source: `if (Number.isNaN(value)) return outMin`
and otherwise the clamped linear interpolation `mapRangeQ`. -/
def mapRange (value : JSNum) (inMin inMax outMin outMax : ℚ) : ℚ :=
  match value with
  | .nan => outMin
  | .num v => mapRangeQ v inMin inMax outMin outMax

/-- Modelled from the spec wording of §4.1 (the reference definition the
claim C3 compares against): clamp `value` into the interval
`[inMin, inMax]` (written the usual way round, `max inMin (min inMax v)`),
then linearly interpolate into `[outMin, outMax]`; `inMin = inMax`
returns `outMin`. -/
def mapRangeSpec (value inMin inMax outMin outMax : ℚ) : ℚ :=
  if inMin = inMax then outMin
  else outMin + ((max inMin (min inMax value)) - inMin) / (inMax - inMin) * (outMax - outMin)

/-- One earthquake feature (`properties.mag`, `properties.time` in epoch
milliseconds, `properties.place`, `geometry.coordinates = [lon, lat,
depthKm]`).  Timestamps are taken to be genuine numbers; the attribute
channels that the code guards against NaN stay `JSNum`. -/
structure EarthquakeFeature where
  mag : JSNum
  time : ℚ
  place : String
  lon : JSNum
  lat : JSNum
  depthKm : JSNum
deriving DecidableEq

/-- `Math.max(0, Math.min(7, mag || 0))` from `scheduleEventVoice`. -/
def magClamp (mag : JSNum) : ℚ := max 0 (min 7 (jsOr0 mag))

/-- `const scaleSemis = [0, 2, 4, 7, 9]` — G-major pentatonic semitone
offsets. -/
def scaleSemis : List ℤ := [0, 2, 4, 7, 9]

/-- `Math.floor(mapRange(magClamped, 0, 7, 0, scaleSemis.length - 0.001))`. -/
def scaleIdx (mag : JSNum) : ℤ :=
  ⌊mapRangeQ (magClamp mag) 0 7 0 ((scaleSemis.length : ℚ) - 1/1000)⌋

/-- JS array indexing `l[i]`: `undefined` (here `none`) when the index is
negative or past the end. -/
def jsIndex (l : List ℤ) (i : ℤ) : Option ℤ :=
  if 0 ≤ i then l.get? i.toNat else none

/-- `mapRange(magClamped, 0, 7, 0.03, 0.18)` — the tone layer's peak
gain. -/
def peakGainOf (mag : JSNum) : ℚ := mapRangeQ (magClamp mag) 0 7 (3/100) (18/100)

/-- Which kind of automation point was queued on an `AudioParam`. -/
inductive AutomKind
  | setValue
  | linearRamp
deriving DecidableEq

/-- One pending automation point on a Web Audio `AudioParam`. -/
structure AutomEvent where
  kind : AutomKind
  value : ℚ
  time : ℚ
deriving DecidableEq

/-- A Web Audio `AudioParam`: its base `value` (the last explicitly set
value — sufficient here because the engine only reads `.value` to snap
the param to itself, and never lets the audio clock advance between a
read and the write that uses it) and the queue of pending automation
events. -/
structure AudioParam where
  value : ℚ
  events : List AutomEvent
deriving DecidableEq

/-- `param.cancelScheduledValues(t)` removes every automation event
scheduled at or after `t`. -/
def AudioParam.cancelScheduledValues (p : AudioParam) (t : ℚ) : AudioParam :=
  { p with events := p.events.filter (fun e => decide (e.time < t)) }

/-- `param.setValueAtTime(v, t)`. -/
def AudioParam.setValueAtTime (p : AudioParam) (v t : ℚ) : AudioParam :=
  { value := v, events := p.events ++ [⟨AutomKind.setValue, v, t⟩] }

/-- `param.linearRampToValueAtTime(v, t)`. -/
def AudioParam.linearRampToValueAtTime (p : AudioParam) (v t : ℚ) : AudioParam :=
  { p with events := p.events ++ [⟨AutomKind.linearRamp, v, t⟩] }

/-- An `AudioScheduledSourceNode` (oscillator or buffer source), reduced
to its scheduled start and stop times. -/
structure SourceNode where
  startTime : Option ℚ
  stopTime : Option ℚ
deriving DecidableEq

/-- `node.stop(t)`: throws `InvalidStateError` when the node was never
started; a later `stop` overrides the scheduled stop time. -/
def SourceNode.stopAt (n : SourceNode) (t : ℚ) : Except String SourceNode :=
  match n.startTime with
  | none => .error "InvalidStateError"
  | some _ => .ok { n with stopTime := some t }

/-- `try { node.stop(t) } catch { /* ignore */ }` from the source. -/
def tryStop (n : SourceNode) (t : ℚ) : SourceNode :=
  match n.stopAt t with
  | .ok n2 => n2
  | .error _ => n

/-- The drone's long-lived node graph (`DroneNodes` in the source).  The
static one-shot parameter writes of `ensureDrone` are kept as plain
fields; only the main `gain` is ever automated afterwards.  The three
oscillator frequencies (130.81, 164.81, 196 Hz) live in `oscFreqs`. -/
structure DroneNodes where
  oscs : List SourceNode
  oscFreqs : List ℚ
  filterFreq : ℚ
  filterQ : ℚ
  pan : ℚ
  gain : AudioParam
  delayTime : ℚ
  delayFeedbackGain : ℚ
  delaySendGain : ℚ
  reverbSendGain : ℚ
deriving DecidableEq

/-- `ensureDrone`'s construction branch: three sine oscillators (C3, E3,
G3 cluster) through a lowpass filter, panner and main gain with delay and
reverb sends; `gain.gain.value = 0`; `osc.start(now)` on each freshly
created oscillator (which cannot throw on a never-started node). -/
def createDrone (now : ℚ) : DroneNodes :=
  { oscs := [⟨some now, none⟩, ⟨some now, none⟩, ⟨some now, none⟩]
    oscFreqs := [13081/100, 16481/100, 196]
    filterFreq := 1800
    filterQ := 7/10
    pan := 0
    gain := { value := 0, events := [] }
    delayTime := 3/5
    delayFeedbackGain := 7/20
    delaySendGain := 3/10
    reverbSendGain := 2/5 }

/-- `const BASE_GAIN = 0.06` — the drone level. -/
def BASE_GAIN : ℚ := 3/50

/-- The drone fade-in issued by `start()`:
`cancelScheduledValues(now); setValueAtTime(0, now);
linearRampToValueAtTime(BASE_GAIN, now + 5)`. -/
def startGainFadeIn (p : AudioParam) (now : ℚ) : AudioParam :=
  ((p.cancelScheduledValues now).setValueAtTime 0 now).linearRampToValueAtTime
    BASE_GAIN (now + 5)

/-- The drone fade-out issued by `stop()`:
`cancelScheduledValues(now); setValueAtTime(gain.value, now);
linearRampToValueAtTime(0, now + 2.5)`. -/
def stopGainFadeOut (p : AudioParam) (now : ℚ) : AudioParam :=
  ((p.cancelScheduledValues now).setValueAtTime p.value now).linearRampToValueAtTime
    0 (now + 5/2)

/-- The drone fade-out issued by the end-of-playback timer callback:
`cancelScheduledValues(ctxNow); setValueAtTime(gain.value, ctxNow);
linearRampToValueAtTime(0, ctxNow + 5)`. -/
def endGainFadeOut (p : AudioParam) (now : ℚ) : AudioParam :=
  ((p.cancelScheduledValues now).setValueAtTime p.value now).linearRampToValueAtTime
    0 (now + 5)

/-- The `opts` argument of `scheduleEventVoice`. -/
structure ScheduleOpts where
  time : ℚ
  mag : JSNum
  lat : JSNum
  depthKm : JSNum
deriving DecidableEq

/-- Every value `scheduleEventVoice` computes for one event voice.  The
tone-layer frequency `196 * 2^(semis/12)` is irrational, so the integer
semitone offset `semis` (JS `scaleSemis[idx]`, `none` = `undefined`)
stands in for it. -/
structure VoiceParams where
  time : ℚ
  panPos : ℚ
  scaleIdx : ℤ
  semis : Option ℤ
  peakGain : ℚ
  safeStart : ℚ
  oscStopTime : ℚ
  centerFreq : ℚ
  noisePeak : ℚ
  noiseStopTime : ℚ
  voiceGain : AudioParam
  noiseGain : AudioParam
deriving DecidableEq

/-- The pure computation inside `scheduleEventVoice` (lines 238–299 of
the source), at audio-clock time `now = ctx.currentTime`.  A fresh
`GainNode`'s param has `value = 1` before the envelope writes. -/
def voiceParams (now : ℚ) (o : ScheduleOpts) : VoiceParams :=
  let time := o.time
  let panPos := mapRange o.lat (-90) 90 (-(9/10)) (9/10)
  let idx := scaleIdx o.mag
  let semis := jsIndex scaleSemis idx
  let peakGain := peakGainOf o.mag
  let attack : ℚ := 4/5
  let release : ℚ := 5
  let startTime := time - 1/50
  let safeStart := max now startTime
  let voiceGain :=
    (((AudioParam.mk 1 []).setValueAtTime 0 safeStart).linearRampToValueAtTime
      peakGain (time + attack)).linearRampToValueAtTime (1/10000) (time + release)
  let depthClamped := max 0 (min 700 (jsOr0 o.depthKm))
  let centerFreq := mapRangeQ depthClamped 0 700 9000 600
  let noisePeak := mapRangeQ (magClamp o.mag) 0 7 (1/100) (6/100)
  let nAttack : ℚ := 3/5
  let nRelease : ℚ := 7/2
  let noiseGain :=
    (((AudioParam.mk 1 []).setValueAtTime 0 safeStart).linearRampToValueAtTime
      noisePeak (time + nAttack)).linearRampToValueAtTime (1/10000) (time + nRelease)
  { time := time
    panPos := panPos
    scaleIdx := idx
    semis := semis
    peakGain := peakGain
    safeStart := safeStart
    oscStopTime := time + release + 1/2
    centerFreq := centerFreq
    noisePeak := noisePeak
    noiseStopTime := time + nRelease + 1/2
    voiceGain := voiceGain
    noiseGain := noiseGain }

/-- What a pending host (`window.setTimeout`) timer will do when it
fires. -/
inductive TimerKind
  | visual
  | endOfPlayback
deriving DecidableEq

/-- A pending host timer.  `run` records which `start()` invocation armed
it (instrumentation for provenance statements; the source does not store
it). -/
structure Timer where
  id : ℕ
  kind : TimerKind
  run : ℕ
  delayMs : ℚ
deriving DecidableEq

/-- The whole engine state: the audio clock (`ctx.currentTime`), the
hook's refs, the `isPlaying` flag, the host timer queue, and a `voices`
log of every voice `scheduleEventVoice` produced (instrumentation; the
source keeps only the transient nodes). -/
structure EngineState where
  clock : ℚ
  ctxCreated : Bool
  drone : Option DroneNodes
  isPlaying : Bool
  transients : List SourceNode
  visualTimeouts : List ℕ
  endTimeout : Option ℕ
  pendingTimers : List Timer
  nextTimerId : ℕ
  runCount : ℕ
  voices : List VoiceParams
deriving DecidableEq

/-- The hook's initial state: every ref `null`/empty, no context yet. -/
def initState : EngineState :=
  { clock := 0
    ctxCreated := false
    drone := none
    isPlaying := false
    transients := []
    visualTimeouts := []
    endTimeout := none
    pendingTimers := []
    nextTimerId := 0
    runCount := 0
    voices := [] }

/-- `window.setTimeout`: queue a timer with a fresh id (the fresh id is
`s.nextTimerId`, known to the caller). -/
def armTimer (s : EngineState) (k : TimerKind) (delayMs : ℚ) : EngineState :=
  { s with
    pendingTimers := s.pendingTimers ++ [⟨s.nextTimerId, k, s.runCount, delayMs⟩]
    nextTimerId := s.nextTimerId + 1 }

/-- `visualTimeoutsRef.current.forEach(id => window.clearTimeout(id));
visualTimeoutsRef.current = []` — used by both `start()` and `stop()`. -/
def clearVisualTimers (s : EngineState) : EngineState :=
  { s with
    pendingTimers := s.pendingTimers.filter (fun t => decide (t.id ∉ s.visualTimeouts))
    visualTimeouts := [] }

/-- `start()`'s end-timer replacement guard:
`if (endTimeoutRef.current) window.clearTimeout(endTimeoutRef.current)`
(the ref itself is overwritten right after, not nulled here). -/
def clearEndTimer (s : EngineState) : EngineState :=
  match s.endTimeout with
  | some i => { s with pendingTimers := s.pendingTimers.filter (fun t => decide (t.id ≠ i)) }
  | none => s

/-- `stop()`'s end-timer teardown: `window.clearTimeout(id)` and
`endTimeoutRef.current = null`. -/
def clearEndTimerAndRef (s : EngineState) : EngineState :=
  match s.endTimeout with
  | some i =>
      { s with
        pendingTimers := s.pendingTimers.filter (fun t => decide (t.id ≠ i))
        endTimeout := none }
  | none => s

/-- `scheduleEventVoice(ctx, drone, opts)` as a state transition: compute
the voice, start the oscillator and the noise source at
`safeStart = max(ctx.currentTime, time - 0.02)`, schedule their stops,
and add both sources to `transientNodesRef`. -/
def scheduleEventVoice (s : EngineState) (o : ScheduleOpts) : EngineState :=
  let v := voiceParams s.clock o
  let osc : SourceNode := { startTime := some v.safeStart, stopTime := some v.oscStopTime }
  let noiseSource : SourceNode := { startTime := some v.safeStart, stopTime := some v.noiseStopTime }
  { s with
    transients := s.transients ++ [osc, noiseSource]
    voices := s.voices ++ [v] }

/-- One iteration of `start()`'s `for (const feature of quakes)` loop:
compute the onset `t = now + startOffset + relMs / timeScale`, schedule
the voice, and (when an `onEvent` callback was supplied) arm a visual
timer for `Math.max(0, (t - ctx.currentTime) * 1000)` ms, remembering its
id in `visualTimeoutsRef`. -/
def scheduleLoopStep (now minTime timeScale : ℚ) (hasOnEvent : Bool)
    (s : EngineState) (f : EarthquakeFeature) : EngineState :=
  let relMs := f.time - minTime
  let startOffset : ℚ := 1
  let t := now + startOffset + relMs / timeScale
  let s1 := scheduleEventVoice s ⟨t, f.mag, f.lat, f.depthKm⟩
  if hasOnEvent then
    let delayMs := max 0 ((t - s1.clock) * 1000)
    let id := s1.nextTimerId
    let s2 := armTimer s1 TimerKind.visual delayMs
    { s2 with visualTimeouts := s2.visualTimeouts ++ [id] }
  else s1

/-- `Math.min(...times)` over a nonempty array (the empty case is
unreachable: `start()` returns early on an empty collection). -/
def listMin : List ℚ → ℚ
  | [] => 0
  | x :: xs => xs.foldl min x

/-- `Math.max(...times)` over a nonempty array. -/
def listMax : List ℚ → ℚ
  | [] => 0
  | x :: xs => xs.foldl max x

/-- JS `x || 1`: the span floors to 1 ms exactly when it is 0. -/
def jsOrOne (x : ℚ) : ℚ := if x = 0 then 1 else x

/-- The body of `start()` past its guards (the host is assumed to support
Web Audio, and a suspended context resume has succeeded): lazily create
the context, reuse-or-create the drone and fade it in, compute the
timeline mapping, clear the previous run's visual timers, schedule every
event in input order, flip `isPlaying`, and replace the end-of-playback
timer.  `runCount` is bumped as instrumentation marking the new run. -/
def startRun (s0 : EngineState) (quakes : List EarthquakeFeature)
    (durationSec : ℚ) (hasOnEvent : Bool) : EngineState :=
  let s1 := { s0 with ctxCreated := true, runCount := s0.runCount + 1 }
  let now := s1.clock
  let drone :=
    match s1.drone with
    | some d => d
    | none => createDrone now
  let s2 := { s1 with drone := some { drone with gain := startGainFadeIn drone.gain now } }
  let times := quakes.map (fun f => f.time)
  let minTime := listMin times
  let maxTime := listMax times
  let spanMs := jsOrOne (maxTime - minTime)
  let timeScale := spanMs / durationSec
  let s3 := clearVisualTimers s2
  let s4 := quakes.foldl (scheduleLoopStep now minTime timeScale hasOnEvent) s3
  let s5 := { s4 with isPlaying := true }
  let estimatedEnd := now + 1 + durationSec + 10
  let s6 := clearEndTimer s5
  let endId := s6.nextTimerId
  { (armTimer s6 TimerKind.endOfPlayback ((estimatedEnd - now) * 1000)) with
    endTimeout := some endId }

/-- `start()`: no-op when the collection is `null` or empty, else
`startRun`. -/
def startF (s : EngineState) (features : Option (List EarthquakeFeature))
    (durationSec : ℚ) (hasOnEvent : Bool) : EngineState :=
  match features with
  | none => s
  | some quakes => if quakes.isEmpty then s else startRun s quakes durationSec hasOnEvent

/-- `stop()`: when both the context and the drone exist, fade the drone
gain out over 2.5 s and `try { osc.stop(now + 3) }` each drone
oscillator; stop-and-clear every transient node (each `node.stop()` is
wrapped in `try/catch`, and the set is cleared regardless); clear all
visual timers and the end-of-playback timer; finally
`setIsPlaying(false)`. -/
def stopF (s : EngineState) : EngineState :=
  let s1 :=
    match s.ctxCreated, s.drone with
    | true, some drone =>
        let now := s.clock
        { s with
          drone := some
            { drone with
              gain := stopGainFadeOut drone.gain now
              oscs := drone.oscs.map (fun o => tryStop o (now + 3)) } }
    | _, _ => s
  let s2 := { s1 with transients := [] }
  let s3 := clearVisualTimers s2
  let s4 := clearEndTimerAndRef s3
  { s4 with isPlaying := false }

/-- The end-of-playback timer callback: fade the drone out over 5 s (if
it exists) and flip `isPlaying`; the fired timer leaves the host queue
(the source does not null `endTimeoutRef` here). -/
def fireEndTimeout (s : EngineState) (i : ℕ) : EngineState :=
  let s1 := { s with pendingTimers := s.pendingTimers.filter (fun t => decide (t.id ≠ i)) }
  let s2 :=
    match s1.drone with
    | some d => { s1 with drone := some { d with gain := endGainFadeOut d.gain s1.clock } }
    | none => s1
  { s2 with isPlaying := false }

/-- A visual timer fires: it leaves the host queue and invokes the
external `onEvent` callback (external to the engine state). -/
def fireVisualTimeout (s : EngineState) (i : ℕ) : EngineState :=
  { s with pendingTimers := s.pendingTimers.filter (fun t => decide (t.id ≠ i)) }

/-- The engine states reachable from the initial hook state: the audio
clock may advance, `start()`/`stop()` may be called, a pending timer may
fire, and a transient source may report `ended` (removing itself from the
active-voice set). -/
inductive Reachable : EngineState → Prop
  | base : Reachable initState
  | tick (s : EngineState) (t : ℚ) : Reachable s → Reachable { s with clock := t }
  | startStep (s : EngineState) (features : Option (List EarthquakeFeature))
      (durationSec : ℚ) (hasOnEvent : Bool) :
      Reachable s → Reachable (startF s features durationSec hasOnEvent)
  | stopStep (s : EngineState) : Reachable s → Reachable (stopF s)
  | fireEnd (s : EngineState) (t : Timer) (hmem : t ∈ s.pendingTimers)
      (hkind : t.kind = TimerKind.endOfPlayback) :
      Reachable s → Reachable (fireEndTimeout s t.id)
  | fireVisual (s : EngineState) (t : Timer) (hmem : t ∈ s.pendingTimers)
      (hkind : t.kind = TimerKind.visual) :
      Reachable s → Reachable (fireVisualTimeout s t.id)
  | ended (s : EngineState) (n : SourceNode) :
      Reachable s → Reachable { s with transients := s.transients.erase n }

/-- The timer-bookkeeping invariant: pending timer ids are below the
fresh-id counter and pairwise distinct, every pending end-of-playback
timer is the one `endTimeoutRef` holds, and every pending visual timer is
recorded in `visualTimeoutsRef` and belongs to the most recent run. -/
@[reducible] def TimerInv (s : EngineState) : Prop :=
  (∀ t ∈ s.pendingTimers, t.id < s.nextTimerId) ∧
  (s.pendingTimers.map Timer.id).Nodup ∧
  (∀ t ∈ s.pendingTimers, t.kind = TimerKind.endOfPlayback → s.endTimeout = some t.id) ∧
  (∀ t ∈ s.pendingTimers, t.kind = TimerKind.visual →
    t.id ∈ s.visualTimeouts ∧ t.run = s.runCount)

/-- Number of automation events on `p` that are still-pending (at or
after `now`) linear ramps to 0 — pending fade-out ramps. -/
def pendingFadeOutRamps (p : AudioParam) (now : ℚ) : ℕ :=
  (p.events.filter (fun e =>
    decide (e.kind = AutomKind.linearRamp) && decide (e.value = 0) &&
      decide (now ≤ e.time))).length

/-- A concrete earthquake feature used by the closed witness and
counterexample statements. -/
def exFeature : EarthquakeFeature :=
  { mag := .num 5, time := 0, place := "example", lon := .num 20,
    lat := .num 10, depthKm := .num 30 }

/-- The engine state after one `start()` from the initial state on the
one-event collection `[exFeature]` with the default 60 s duration and no
visual callback. -/
def sEx : EngineState := startF initState (some [exFeature]) 60 false

/-- A concrete `scheduleEventVoice` argument whose target time (−1) is
already in the past relative to the initial audio clock (0). -/
def oEx : ScheduleOpts := ⟨-1, .num 5, .num 0, .num 10⟩

/-- The drone `sEx` holds: freshly created at clock 0 with the `start()`
fade-in applied to its main gain. -/
def dEx : DroneNodes :=
  { createDrone 0 with gain := startGainFadeIn (createDrone 0).gain 0 }

/-- Linear interpolation with a coefficient in `[0, 1]` stays between the
two endpoints. -/
theorem lerp_bounds (a b t : ℚ) (h0 : 0 ≤ t) (h1 : t ≤ 1) :
    min a b ≤ a + t * (b - a) ∧ a + t * (b - a) ≤ max a b := by
  rcases le_total a b with hab | hab
  · rw [min_eq_left hab, max_eq_right hab]
    constructor <;> nlinarith
  · rw [min_eq_right hab, max_eq_left hab]
    constructor <;> nlinarith

/-- `mapRangeQ` is a lerp by a coefficient in `[0, 1]` whenever the input
interval is nondegenerate (in both orientations: a reversed input
interval clamps everything to `inMax`, giving coefficient 1). -/
theorem mapRangeQ_coeff (v iMin iMax : ℚ) (h : iMin ≠ iMax) :
    ∃ t : ℚ, 0 ≤ t ∧ t ≤ 1 ∧
      ∀ oMin oMax : ℚ, mapRangeQ v iMin iMax oMin oMax = oMin + t * (oMax - oMin) := by
  refine ⟨(min iMax (max iMin v) - iMin) / (iMax - iMin), ?_, ?_, ?_⟩
  · rcases lt_or_gt_of_ne h with hlt | hgt
    · have hc1 : iMin ≤ min iMax (max iMin v) := le_min hlt.le (le_max_left _ _)
      apply div_nonneg <;> linarith
    · have hc : min iMax (max iMin v) = iMax :=
        min_eq_left (le_trans hgt.le (le_max_left _ _))
      rw [hc, div_self (by intro e; exact h (by linarith))]
      norm_num
  · rcases lt_or_gt_of_ne h with hlt | hgt
    · have hc2 : min iMax (max iMin v) ≤ iMax := min_le_left _ _
      rw [div_le_one (by linarith)]
      linarith
    · have hc : min iMax (max iMin v) = iMax :=
        min_eq_left (le_trans hgt.le (le_max_left _ _))
      rw [hc, div_self (by intro e; exact h (by linarith))]
  · intro oMin oMax
    simp only [mapRangeQ]
    rw [if_neg (fun e => h e.symm)]

/-- With `iMin ≤ iMax` the source's clamp `min iMax (max iMin v)` agrees
with the spec's clamp `max iMin (min iMax v)`. -/
theorem clamp_comm (v iMin iMax : ℚ) (h : iMin ≤ iMax) :
    min iMax (max iMin v) = max iMin (min iMax v) := by
  rcases le_total v iMin with h1 | h1
  · rw [max_eq_left h1, min_eq_right h, min_eq_right (le_trans h1 h), max_eq_left h1]
  · rcases le_total v iMax with h2 | h2
    · rw [max_eq_right h1, min_eq_right h2, max_eq_right h1]
    · rw [max_eq_right h1, min_eq_left h2, max_eq_right h]

/-- C3 counterexample: take `inMin = 1`, `inMax = 0` (so `inMin ≠ inMax`),
`outMin = 0`, `outMax = 1`, `value = inMin = 1`.  The claim asserts
`mapRange(inMin, inMin, inMax, outMin, outMax) = outMin = 0`, but the
source clamps to `min(inMax, max(inMin, v)) = 0` and gets norm `1`, so
the result is `outMax = 1 ≠ 0`: the universally asserted endpoint
identity fails on reversed input intervals. -/
theorem C3_counterexample : mapRange (JSNum.num 1) 1 0 0 1 ≠ 0 := by
  norm_num [mapRange, mapRangeQ]

/-- C3 (amended): `mapRange` returns `outMin` on NaN; returns `outMin`
whenever `inMin = inMax`; for every `inMin ≠ inMax` (either orientation)
its output lies in `[min(outMin,outMax), max(outMin,outMax)]`; for
`inMin < inMax` (rather than every `inMin ≠ inMax`, which the
counterexample refutes) it maps the endpoints to `outMin` and `outMax`;
and for `inMin ≤ inMax` it coincides with the spec's reference
clamp-then-lerp definition `mapRangeSpec`. -/
theorem C3_mapRange_properties :
    (∀ iMin iMax oMin oMax : ℚ, mapRange JSNum.nan iMin iMax oMin oMax = oMin) ∧
    (∀ (v : JSNum) (iMin oMin oMax : ℚ), mapRange v iMin iMin oMin oMax = oMin) ∧
    (∀ (v : JSNum) (iMin iMax oMin oMax : ℚ), iMin ≠ iMax →
      min oMin oMax ≤ mapRange v iMin iMax oMin oMax ∧
        mapRange v iMin iMax oMin oMax ≤ max oMin oMax) ∧
    (∀ iMin iMax oMin oMax : ℚ, iMin < iMax →
      mapRange (JSNum.num iMin) iMin iMax oMin oMax = oMin ∧
        mapRange (JSNum.num iMax) iMin iMax oMin oMax = oMax) ∧
    (∀ v iMin iMax oMin oMax : ℚ, iMin ≤ iMax →
      mapRange (JSNum.num v) iMin iMax oMin oMax = mapRangeSpec v iMin iMax oMin oMax) := by
  refine ⟨fun _ _ _ _ => rfl, ?_, ?_, ?_, ?_⟩
  · intro v iMin oMin oMax
    cases v with
    | nan => rfl
    | num q => simp [mapRange, mapRangeQ]
  · intro v iMin iMax oMin oMax h
    cases v with
    | nan =>
        exact ⟨min_le_left _ _, le_max_left _ _⟩
    | num q =>
        obtain ⟨t, ht0, ht1, heq⟩ := mapRangeQ_coeff q iMin iMax h
        rw [mapRange, heq]
        exact lerp_bounds oMin oMax t ht0 ht1
  · intro iMin iMax oMin oMax h
    constructor
    · show mapRangeQ iMin iMin iMax oMin oMax = oMin
      simp only [mapRangeQ]
      rw [if_neg (fun e => absurd e.symm (ne_of_lt h)), max_self,
        min_eq_right h.le]
      simp
    · show mapRangeQ iMax iMin iMax oMin oMax = oMax
      simp only [mapRangeQ]
      rw [if_neg (fun e => absurd e.symm (ne_of_lt h)), max_eq_right h.le,
        min_self, div_self (by intro e; exact absurd (by linarith : iMin = iMax) (ne_of_lt h))]
      ring
  · intro v iMin iMax oMin oMax h
    show mapRangeQ v iMin iMax oMin oMax = mapRangeSpec v iMin iMax oMin oMax
    rcases eq_or_lt_of_le h with heq | hlt
    · subst heq
      simp only [mapRangeQ, mapRangeSpec]
      simp
    · simp only [mapRangeQ, mapRangeSpec]
      rw [if_neg (ne_of_lt hlt), if_neg (fun e => absurd e.symm (ne_of_lt hlt)),
        clamp_comm v iMin iMax h]

/-- C3 witness: the amended properties at concrete inputs — the code and
the spec's reference definition agree on `(3, 0, 7, 10, 20)`, and the
left endpoint maps to `outMin` there. -/
theorem C3_witness :
    mapRange (JSNum.num 3) 0 7 10 20 = mapRangeSpec 3 0 7 10 20 ∧
    mapRange (JSNum.num 0) 0 7 10 20 = 10 := by
  constructor
  · exact C3_mapRange_properties.2.2.2.2 3 0 7 10 20 (by norm_num)
  · exact (C3_mapRange_properties.2.2.2.1 0 7 10 20 (by norm_num)).1

/-- The tone layer's peak gain at the extreme magnitudes. -/
theorem peakGainOf_extremes : peakGainOf (JSNum.num 0) = 3/100 ∧ peakGainOf (JSNum.num 7) = 18/100 := by
  constructor <;> norm_num [peakGainOf, magClamp, jsOr0, mapRangeQ, min_def, max_def]

/-- The pentatonic scale index at the extreme magnitudes. -/
theorem scaleIdx_extremes : scaleIdx (JSNum.num 0) = 0 ∧ scaleIdx (JSNum.num 7) = 4 := by
  constructor
  · have h : mapRangeQ (magClamp (JSNum.num 0)) 0 7 0 ((scaleSemis.length : ℚ) - 1/1000) = 0 := by
      norm_num [magClamp, jsOr0, mapRangeQ, min_def, max_def]
    unfold scaleIdx
    rw [h]
    exact Int.floor_zero
  · have h : mapRangeQ (magClamp (JSNum.num 7)) 0 7 0 ((scaleSemis.length : ℚ) - 1/1000)
        = 4999/1000 := by
      norm_num [magClamp, jsOr0, mapRangeQ, scaleSemis, min_def, max_def]
    unfold scaleIdx
    rw [h, Int.floor_eq_iff]
    norm_num

/-- C6: with all other attributes fixed, `scheduleEventVoice` gives a
magnitude-7 event a strictly greater tone-layer peak gain and a strictly
higher pentatonic-scale index than a magnitude-0 event. -/
theorem C6_magnitude_extremes (now time : ℚ) (lat depthKm : JSNum) :
    (voiceParams now ⟨time, JSNum.num 0, lat, depthKm⟩).peakGain
        < (voiceParams now ⟨time, JSNum.num 7, lat, depthKm⟩).peakGain ∧
    (voiceParams now ⟨time, JSNum.num 0, lat, depthKm⟩).scaleIdx
        < (voiceParams now ⟨time, JSNum.num 7, lat, depthKm⟩).scaleIdx := by
  have hp : (voiceParams now ⟨time, JSNum.num 0, lat, depthKm⟩).peakGain = peakGainOf (JSNum.num 0) := rfl
  have hp7 : (voiceParams now ⟨time, JSNum.num 7, lat, depthKm⟩).peakGain = peakGainOf (JSNum.num 7) := rfl
  have hi : (voiceParams now ⟨time, JSNum.num 0, lat, depthKm⟩).scaleIdx = scaleIdx (JSNum.num 0) := rfl
  have hi7 : (voiceParams now ⟨time, JSNum.num 7, lat, depthKm⟩).scaleIdx = scaleIdx (JSNum.num 7) := rfl
  rw [hp, hp7, hi, hi7, peakGainOf_extremes.1, peakGainOf_extremes.2,
    scaleIdx_extremes.1, scaleIdx_extremes.2]
  norm_num

/-- C9: for every magnitude — NaN, negative, or above 7 included — the
scale index `floor(mapRange(magClamped, 0, 7, 0, 4.999))` lies in
`{0,…,4}`, the lookup into the 5-element `scaleSemis` table succeeds, and
the voice's pitch determinant `semis` is therefore defined. -/
theorem C9_scale_index_safe (mag : JSNum) (now time : ℚ) (lat depthKm : JSNum) :
    0 ≤ scaleIdx mag ∧ scaleIdx mag ≤ 4 ∧
    (jsIndex scaleSemis (scaleIdx mag)).isSome = true ∧
    (voiceParams now ⟨time, mag, lat, depthKm⟩).semis.isSome = true := by
  have hx : 0 ≤ mapRangeQ (magClamp mag) 0 7 0 ((scaleSemis.length : ℚ) - 1/1000) ∧
      mapRangeQ (magClamp mag) 0 7 0 ((scaleSemis.length : ℚ) - 1/1000) < 5 := by
    simp only [mapRangeQ]
    rw [if_neg (by norm_num : ¬ (7:ℚ) = 0)]
    have hc0 : (0:ℚ) ≤ min 7 (max 0 (magClamp mag)) :=
      le_min (by norm_num) (le_max_left _ _)
    have hc7 : min 7 (max 0 (magClamp mag)) ≤ 7 := min_le_left _ _
    have hlen : ((scaleSemis.length : ℚ) - 1/1000) = 4999/1000 := by
      unfold scaleSemis
      norm_num
    rw [hlen]
    constructor
    · have ht : 0 ≤ (min 7 (max 0 (magClamp mag)) - 0) / (7 - 0) := by
        apply div_nonneg <;> linarith
      nlinarith
    · have ht : (min 7 (max 0 (magClamp mag)) - 0) / (7 - 0) ≤ 1 := by
        rw [div_le_one (by norm_num)]
        linarith
      have ht0 : 0 ≤ (min 7 (max 0 (magClamp mag)) - 0) / (7 - 0) := by
        apply div_nonneg <;> linarith
      nlinarith
  have h0 : 0 ≤ scaleIdx mag := Int.floor_nonneg.mpr hx.1
  have h4 : scaleIdx mag ≤ 4 := by
    have h5 : scaleIdx mag < 5 := by
      have := Int.floor_lt.mpr (by exact_mod_cast hx.2 :
        mapRangeQ (magClamp mag) 0 7 0 ((scaleSemis.length : ℚ) - 1/1000) < ((5:ℤ) : ℚ))
      exact_mod_cast this
    omega
  have hsome : (jsIndex scaleSemis (scaleIdx mag)).isSome = true := by
    unfold jsIndex
    rw [if_pos h0, List.get?_eq_getElem?]
    have hlt : (scaleIdx mag).toNat < scaleSemis.length := by
      unfold scaleSemis
      simp only [List.length_cons, List.length_nil]
      omega
    simp [List.getElem?_eq_getElem hlt]
  exact ⟨h0, h4, hsome, hsome⟩

/-- The computed voice keeps the onset time it was scheduled for. -/
theorem voiceParams_time (now : ℚ) (o : ScheduleOpts) : (voiceParams now o).time = o.time := rfl

/-- `scheduleEventVoice` appends exactly one voice to the log. -/
theorem scheduleEventVoice_voices (s : EngineState) (o : ScheduleOpts) :
    (scheduleEventVoice s o).voices = s.voices ++ [voiceParams s.clock o] := rfl

/-- `scheduleEventVoice` does not advance the audio clock. -/
theorem scheduleEventVoice_clock (s : EngineState) (o : ScheduleOpts) :
    (scheduleEventVoice s o).clock = s.clock := rfl

/-- One scheduler-loop iteration appends exactly one voice, at onset
`now + 1 + (f.time - minTime) / timeScale`. -/
theorem scheduleLoopStep_voices (now minTime timeScale : ℚ) (b : Bool)
    (s : EngineState) (f : EarthquakeFeature) :
    (scheduleLoopStep now minTime timeScale b s f).voices =
      s.voices ++ [voiceParams s.clock
        ⟨now + 1 + (f.time - minTime) / timeScale, f.mag, f.lat, f.depthKm⟩] := by
  cases b <;> rfl

/-- One scheduler-loop iteration does not advance the audio clock. -/
theorem scheduleLoopStep_clock (now minTime timeScale : ℚ) (b : Bool)
    (s : EngineState) (f : EarthquakeFeature) :
    (scheduleLoopStep now minTime timeScale b s f).clock = s.clock := by
  cases b <;> rfl

/-- Clearing the visual timers does not touch the voice log. -/
theorem clearVisualTimers_voices (s : EngineState) :
    (clearVisualTimers s).voices = s.voices := rfl

/-- Clearing the visual timers does not advance the audio clock. -/
theorem clearVisualTimers_clock (s : EngineState) :
    (clearVisualTimers s).clock = s.clock := rfl

/-- Replacing the end timer does not touch the voice log. -/
theorem clearEndTimer_voices (s : EngineState) :
    (clearEndTimer s).voices = s.voices := by
  unfold clearEndTimer
  cases s.endTimeout <;> rfl

/-- Replacing the end timer does not advance the audio clock. -/
theorem clearEndTimer_clock (s : EngineState) :
    (clearEndTimer s).clock = s.clock := by
  unfold clearEndTimer
  cases s.endTimeout <;> rfl

/-- Arming a timer does not touch the voice log. -/
theorem armTimer_voices (s : EngineState) (k : TimerKind) (d : ℚ) :
    (armTimer s k d).voices = s.voices := rfl

/-- C1: for a two-event collection with `T0 < T1` and duration `D`, the
`start()` schedule contains exactly two new voices and the onset of the
later-timestamped event minus the onset of the earlier one is exactly
`D`: the whole real span compresses to `D` seconds. -/
theorem C1_two_event_compression (s : EngineState) (e0 e1 : EarthquakeFeature)
    (D : ℚ) (b : Bool) (hT : e0.time < e1.time) (hD : 0 < D) :
    ∃ v0 v1 : VoiceParams,
      (startF s (some [e0, e1]) D b).voices = s.voices ++ [v0, v1] ∧
      v1.time - v0.time = D := by
  have hT0 : e1.time - e0.time ≠ 0 := sub_ne_zero.mpr (ne_of_gt hT)
  have hmin : listMin (List.map (fun f => f.time) [e0, e1]) = e0.time := by
    simp [listMin, min_eq_left hT.le]
  have hmax : listMax (List.map (fun f => f.time) [e0, e1]) = e1.time := by
    simp [listMax, max_eq_right hT.le]
  have hspan : jsOrOne (e1.time - e0.time) = e1.time - e0.time := by
    rw [jsOrOne, if_neg hT0]
  refine ⟨voiceParams s.clock
      ⟨s.clock + 1 + (e0.time - e0.time) / ((e1.time - e0.time) / D), e0.mag, e0.lat, e0.depthKm⟩,
    voiceParams s.clock
      ⟨s.clock + 1 + (e1.time - e0.time) / ((e1.time - e0.time) / D), e1.mag, e1.lat, e1.depthKm⟩,
    ?_, ?_⟩
  · simp only [startF, List.isEmpty_cons, Bool.false_eq_true, if_false, startRun,
      hmin, hmax, hspan, List.foldl_cons, List.foldl_nil]
    simp [scheduleLoopStep_voices, scheduleLoopStep_clock, clearVisualTimers_voices,
      clearVisualTimers_clock, clearEndTimer_voices, armTimer_voices, hmin, hmax, hspan]
  · simp only [voiceParams_time]
    rw [sub_self, zero_div, add_zero, div_div_eq_mul_div, mul_comm,
      mul_div_assoc, div_self hT0, mul_one]
    ring

/-- C1 witness: two events 100 ms apart compressed into `D = 60` s. -/
theorem C1_witness :
    ∃ v0 v1 : VoiceParams,
      (startF initState (some [exFeature, { exFeature with time := 100 }]) 60 true).voices
          = initState.voices ++ [v0, v1] ∧
      v1.time - v0.time = 60 :=
  C1_two_event_compression initState exFeature { exFeature with time := 100 } 60 true
    (by norm_num [exFeature]) (by norm_num)

/-- C2: for a single-event collection the computed onset is exactly
`clockNow + startOffset` (`startOffset = 1`), whatever the event's
absolute timestamp, magnitude, or the configured duration: the span
floors to 1 ms and `relMs = 0` collapses the mapping. -/
theorem C2_single_event_onset (s : EngineState) (e : EarthquakeFeature) (D : ℚ) (b : Bool) :
    ∃ v : VoiceParams,
      (startF s (some [e]) D b).voices = s.voices ++ [v] ∧ v.time = s.clock + 1 := by
  have hmin : listMin (List.map (fun f => f.time) [e]) = e.time := by
    simp [listMin]
  have hmax : listMax (List.map (fun f => f.time) [e]) = e.time := by
    simp [listMax]
  have hspan : jsOrOne (e.time - e.time) = 1 := by
    rw [sub_self, jsOrOne, if_pos rfl]
  refine ⟨voiceParams s.clock
      ⟨s.clock + 1 + (e.time - e.time) / (1 / D), e.mag, e.lat, e.depthKm⟩, ?_, ?_⟩
  · simp only [startF, List.isEmpty_cons, Bool.false_eq_true, if_false, startRun,
      hmin, hmax, hspan, List.foldl_cons, List.foldl_nil]
    simp [scheduleLoopStep_voices, scheduleLoopStep_clock, clearVisualTimers_voices,
      clearVisualTimers_clock, clearEndTimer_voices, armTimer_voices, hmin, hmax, hspan]
  · simp only [voiceParams_time]
    rw [sub_self, zero_div, add_zero]

/-- C7: an event whose target onset is already in the past when it is
scheduled is not dropped: `scheduleEventVoice` still creates and starts
both of its source nodes, with the start clamped to the current audio
clock (`safeStart = max(ctx.currentTime, time - 0.02) = ctx.currentTime`). -/
theorem C7_no_event_dropped (s : EngineState) (o : ScheduleOpts) (h : o.time ≤ s.clock) :
    (scheduleEventVoice s o).transients =
      s.transients ++
        [{ startTime := some s.clock, stopTime := some (o.time + 5 + 1/2) },
         { startTime := some s.clock, stopTime := some (o.time + 7/2 + 1/2) }] ∧
    (voiceParams s.clock o).safeStart = s.clock := by
  have hs : (voiceParams s.clock o).safeStart = s.clock := by
    show max s.clock (o.time - 1/50) = s.clock
    exact max_eq_left (by linarith)
  refine ⟨?_, hs⟩
  show s.transients ++
      [{ startTime := some (voiceParams s.clock o).safeStart,
         stopTime := some (voiceParams s.clock o).oscStopTime },
       { startTime := some (voiceParams s.clock o).safeStart,
         stopTime := some (voiceParams s.clock o).noiseStopTime }] = _
  rw [hs]
  rfl

/-- C7 witness: the event at time −1 with the clock at 0 is scheduled,
not dropped, and starts at the clock. -/
theorem C7_witness :
    (scheduleEventVoice initState oEx).transients =
      initState.transients ++
        [{ startTime := some initState.clock, stopTime := some (oEx.time + 5 + 1/2) },
         { startTime := some initState.clock, stopTime := some (oEx.time + 7/2 + 1/2) }] ∧
    (voiceParams initState.clock oEx).safeStart = initState.clock :=
  C7_no_event_dropped initState oEx (by norm_num [oEx, initState])

/-- A filter applied twice is the filter applied once. -/
theorem filter_idem {α : Type} (p : α → Bool) (l : List α) :
    (l.filter p).filter p = l.filter p := by
  rw [List.filter_filter]
  congr 1
  funext a
  rw [Bool.and_self]

/-- With `visualTimeoutsRef` already empty, clearing the visual timers
removes nothing from the host timer queue. -/
theorem filter_not_mem_nil (l : List Timer) :
    l.filter (fun t => decide (t.id ∉ ([] : List ℕ))) = l := by
  apply List.filter_eq_self.mpr
  intro a _
  simp

/-- The `stop()` fade-out does not change the param's base value. -/
theorem stopGainFadeOut_value (p : AudioParam) (now : ℚ) :
    (stopGainFadeOut p now).value = p.value := rfl

/-- Issuing the `stop()` fade-out twice at the same clock time leaves
exactly the automation queue of the first: the second call's
`cancelScheduledValues` removes precisely the snap-and-ramp pair the
first call queued and re-queues an identical pair. -/
theorem stopGainFadeOut_idem (p : AudioParam) (now : ℚ) :
    stopGainFadeOut (stopGainFadeOut p now) now = stopGainFadeOut p now := by
  have h1 : (decide (now < now)) = false := by simp
  have h2 : (decide (now + 5/2 < now)) = false := by
    simp only [decide_eq_false_iff_not]
    intro h
    linarith
  simp [stopGainFadeOut, AudioParam.cancelScheduledValues, AudioParam.setValueAtTime,
    AudioParam.linearRampToValueAtTime, List.filter_append, List.filter_cons, h1, h2,
    filter_idem]
  norm_num

/-- `try { node.stop(t) } catch {}` twice equals once. -/
theorem tryStop_idem (n : SourceNode) (t : ℚ) : tryStop (tryStop n t) t = tryStop n t := by
  cases h : n.startTime with
  | none => simp [tryStop, SourceNode.stopAt, h]
  | some a => simp [tryStop, SourceNode.stopAt, h]

/-- Stopping every node of a list twice equals stopping each once. -/
theorem map_tryStop_idem (l : List SourceNode) (t : ℚ) :
    (l.map (fun o => tryStop o t)).map (fun o => tryStop o t) = l.map (fun o => tryStop o t) := by
  rw [List.map_map]
  simp [Function.comp, tryStop_idem]

/-- `try { node.stop(t) } catch {}` never changes when the node started. -/
theorem tryStop_startTime (n : SourceNode) (t : ℚ) :
    (tryStop n t).startTime = n.startTime := by
  cases h : n.startTime with
  | none => simp [tryStop, SourceNode.stopAt, h]
  | some a => simp [tryStop, SourceNode.stopAt, h]

/-- `stop()` is idempotent on the whole engine state when called twice in
a row (same audio-clock instant): every ref, the timer queue, the drone
automation and the flag come out identical. -/
theorem stopF_idem (s : EngineState) : stopF (stopF s) = stopF s := by
  cases hc : s.ctxCreated <;> cases hd : s.drone <;> cases he : s.endTimeout <;>
    simp [stopF, clearVisualTimers, clearEndTimerAndRef, hc, hd, he,
      filter_idem, filter_not_mem_nil, stopGainFadeOut_idem, stopGainFadeOut_value,
      map_tryStop_idem, tryStop_idem]

/-- `clearVisualTimers` does not touch the drone. -/
theorem clearVisualTimers_drone (s : EngineState) :
    (clearVisualTimers s).drone = s.drone := rfl

/-- `clearEndTimer` does not touch the drone. -/
theorem clearEndTimer_drone (s : EngineState) :
    (clearEndTimer s).drone = s.drone := by
  unfold clearEndTimer
  cases s.endTimeout <;> rfl

/-- `clearEndTimerAndRef` does not touch the drone. -/
theorem clearEndTimerAndRef_drone (s : EngineState) :
    (clearEndTimerAndRef s).drone = s.drone := by
  unfold clearEndTimerAndRef
  cases s.endTimeout <;> rfl

/-- `armTimer` does not touch the drone. -/
theorem armTimer_drone (s : EngineState) (k : TimerKind) (d : ℚ) :
    (armTimer s k d).drone = s.drone := rfl

/-- A scheduler-loop iteration does not touch the drone. -/
theorem scheduleLoopStep_drone (now minTime timeScale : ℚ) (b : Bool)
    (s : EngineState) (f : EarthquakeFeature) :
    (scheduleLoopStep now minTime timeScale b s f).drone = s.drone := by
  cases b <;> rfl

/-- The whole scheduling loop does not touch the drone. -/
theorem foldl_loop_drone (now minTime timeScale : ℚ) (b : Bool) :
    ∀ (q : List EarthquakeFeature) (s : EngineState),
      (q.foldl (scheduleLoopStep now minTime timeScale b) s).drone = s.drone := by
  intro q
  induction q with
  | nil => intro s; rfl
  | cons f q ih =>
      intro s
      rw [List.foldl_cons, ih, scheduleLoopStep_drone]

/-- What `stop()` does to an existing drone: fade the main gain out and
schedule each oscillator to stop at `now + 3`. -/
theorem stopF_drone (s : EngineState) (d : DroneNodes) (hc : s.ctxCreated = true)
    (hd : s.drone = some d) :
    (stopF s).drone = some { d with
      gain := stopGainFadeOut d.gain s.clock
      oscs := d.oscs.map (fun o => tryStop o (s.clock + 3)) } := by
  simp [stopF, clearEndTimerAndRef_drone, clearVisualTimers_drone, hc, hd]

/-- The tone-layer count of still-pending ramps to zero after a `stop()`
fade-out is exactly one: the snap event is not a ramp, every older event
kept by `cancelScheduledValues` lies strictly before `now`, and the one
new ramp targets 0 at `now + 2.5`. -/
theorem pendingFadeOutRamps_stop (p : AudioParam) (now : ℚ) :
    pendingFadeOutRamps (stopGainFadeOut p now) now = 1 := by
  have hold : ∀ l : List AutomEvent,
      ((l.filter (fun e => decide (e.time < now))).filter (fun e =>
        decide (e.kind = AutomKind.linearRamp) && decide (e.value = 0) &&
          decide (now ≤ e.time))) = [] := by
    intro l
    rw [List.filter_eq_nil_iff]
    intro a ha
    have ht : a.time < now := by
      have := (List.mem_filter.mp ha).2
      simpa using this
    simp only [Bool.and_eq_true, decide_eq_true_eq, not_and]
    intro _ _
    linarith
  simp [pendingFadeOutRamps, stopGainFadeOut, AudioParam.cancelScheduledValues,
    AudioParam.setValueAtTime, AudioParam.linearRampToValueAtTime,
    List.filter_append, List.filter_cons, hold]
  norm_num

/-- C4: `stop()` is safe and idempotent at every engine state — it always
leaves `isPlaying = false`; a second consecutive call reproduces the
exact same state (so no double side effects, and the only fallible
operations, the `node.stop` calls, are guarded by the source's
`try/catch`, making the whole operation total); and when a drone exists
the fade-out it leaves pending is a single ramp to zero, never a
duplicate. -/
theorem C4_stop_idempotent_safe (s : EngineState) :
    (stopF s).isPlaying = false ∧
    stopF (stopF s) = stopF s ∧
    (s.ctxCreated = true → ∀ d : DroneNodes, s.drone = some d →
      ∃ d2, (stopF s).drone = some d2 ∧ pendingFadeOutRamps d2.gain s.clock = 1) := by
  refine ⟨rfl, stopF_idem s, ?_⟩
  intro hc d hd
  exact ⟨_, stopF_drone s d hc hd, pendingFadeOutRamps_stop d.gain s.clock⟩

/-- C4 witness: at the concrete playing state `sEx` (which owns a drone),
`stop()` clears the flag and leaves exactly one pending fade-out ramp. -/
theorem C4_witness :
    (stopF sEx).isPlaying = false ∧
    (∃ d2, (stopF sEx).drone = some d2 ∧ pendingFadeOutRamps d2.gain sEx.clock = 1) :=
  ⟨(C4_stop_idempotent_safe sEx).1, (C4_stop_idempotent_safe sEx).2.2 rfl dEx rfl⟩

/-- C8 counterexample: the claim says the drone's oscillators are never
individually stopped by any engine operation, `stop()` included; but at
the concrete reachable state `sEx` (one `start()` from the initial
state), `stop()` schedules every drone oscillator to stop at
`clock + 3`, so their stop times are not `none`. -/
theorem C8_counterexample :
    ¬ (∀ d ∈ (stopF sEx).drone.toList, ∀ o ∈ d.oscs, o.stopTime = none) := by
  intro h
  have hd : (stopF sEx).drone = some { dEx with
      gain := stopGainFadeOut dEx.gain sEx.clock
      oscs := dEx.oscs.map (fun o => tryStop o (sEx.clock + 3)) } :=
    stopF_drone sEx dEx rfl rfl
  have hosc := h _ (by rw [hd]; exact List.mem_singleton.mpr rfl)
      (tryStop ⟨some 0, none⟩ (sEx.clock + 3))
      (by simp [dEx, createDrone])
  simp [tryStop, SourceNode.stopAt] at hosc

/-- C8 (amended): the drone's oscillators, started once at creation, are
never stopped or restarted by `start()`, by the end-of-playback fade-out,
or by a visual callback — all of these touch the drone only through gain
automation on its main gain node; the one exception is `stop()` itself,
which schedules each oscillator to stop 3 seconds after the call (their
start times stay untouched even then). -/
theorem C8_drone_sources (s : EngineState) :
    (∀ (q : Option (List EarthquakeFeature)) (D : ℚ) (b : Bool) (d : DroneNodes),
      s.drone = some d → ∃ g, (startF s q D b).drone = some { d with gain := g }) ∧
    (∀ (i : ℕ) (d : DroneNodes), s.drone = some d →
      (fireEndTimeout s i).drone = some { d with gain := endGainFadeOut d.gain s.clock }) ∧
    (∀ i : ℕ, (fireVisualTimeout s i).drone = s.drone) ∧
    (∀ d : DroneNodes, s.ctxCreated = true → s.drone = some d →
      (stopF s).drone = some { d with
        gain := stopGainFadeOut d.gain s.clock
        oscs := d.oscs.map (fun o => tryStop o (s.clock + 3)) } ∧
      (d.oscs.map (fun o => tryStop o (s.clock + 3))).map SourceNode.startTime
        = d.oscs.map SourceNode.startTime) := by
  refine ⟨?_, ?_, fun i => rfl, ?_⟩
  · intro q D b d hd
    cases q with
    | none =>
        exact ⟨d.gain, by simp only [startF]; rw [hd]⟩
    | some quakes =>
        cases quakes with
        | nil =>
            exact ⟨d.gain, by simp only [startF, List.isEmpty_nil, if_true]; rw [hd]⟩
        | cons f q' =>
            refine ⟨startGainFadeIn d.gain s.clock, ?_⟩
            simp [startF, startRun, armTimer_drone, clearEndTimer_drone,
              foldl_loop_drone, scheduleLoopStep_drone, clearVisualTimers_drone, hd]
  · intro i d hd
    simp [fireEndTimeout, hd]
  · intro d hc hd
    refine ⟨stopF_drone s d hc hd, ?_⟩
    rw [List.map_map]
    simp [Function.comp, tryStop_startTime]

/-- C8 witness: at the concrete state `sEx`, a further `start()` touches
only the drone's gain, and `stop()` stops each oscillator at `clock + 3`
as the amended claim states. -/
theorem C8_witness :
    (∃ g, (startF sEx (some [exFeature]) 60 false).drone = some { dEx with gain := g }) ∧
    (stopF sEx).drone = some { dEx with
      gain := stopGainFadeOut dEx.gain sEx.clock
      oscs := dEx.oscs.map (fun o => tryStop o (sEx.clock + 3)) } :=
  ⟨(C8_drone_sources sEx).1 (some [exFeature]) 60 false dEx rfl,
    ((C8_drone_sources sEx).2.2.2 dEx rfl rfl).1⟩

/-- Appending a timer with the fresh id keeps the pending ids pairwise
distinct. -/
theorem nodup_ids_append (l : List Timer) (n : ℕ) (k : TimerKind) (r : ℕ) (d : ℚ)
    (hB : ∀ t ∈ l, t.id < n) (hN : (l.map Timer.id).Nodup) :
    ((l ++ [({ id := n, kind := k, run := r, delayMs := d } : Timer)]).map Timer.id).Nodup := by
  rw [List.map_append, List.nodup_append]
  refine ⟨hN, List.nodup_singleton _, ?_⟩
  intro a ha hb
  obtain ⟨t, htl, rfl⟩ := List.mem_map.mp ha
  have hlt := hB t htl
  simp only [List.map_cons, List.map_nil, List.mem_singleton] at hb
  omega

/-- Filtering the pending queue preserves the timer invariant. -/
theorem timerInv_filterPending (s : EngineState) (p : Timer → Bool) (h : TimerInv s) :
    TimerInv { s with pendingTimers := s.pendingTimers.filter p } := by
  obtain ⟨hB, hN, hE, hV⟩ := h
  exact ⟨fun t ht => hB t (List.mem_of_mem_filter ht),
    List.Nodup.sublist (List.Sublist.map _ (List.filter_sublist _)) hN,
    fun t ht hk => hE t (List.mem_of_mem_filter ht) hk,
    fun t ht hk => hV t (List.mem_of_mem_filter ht) hk⟩

/-- Clearing the visual timers restores the timer invariant even after
the run counter was bumped: every pending visual timer is removed
(because its id was recorded in `visualTimeoutsRef`), the ref is emptied,
and the other components shrink. -/
theorem timerInv_clearVisual_any (s s' : EngineState) (h : TimerInv s)
    (hp : s'.pendingTimers = s.pendingTimers)
    (hn : s'.nextTimerId = s.nextTimerId)
    (he : s'.endTimeout = s.endTimeout)
    (hv : s'.visualTimeouts = s.visualTimeouts) :
    TimerInv (clearVisualTimers s') := by
  obtain ⟨hB, hN, hE, hV⟩ := h
  refine ⟨?_, ?_, ?_, ?_⟩
  · intro t ht
    show t.id < s'.nextTimerId
    rw [hn]
    exact hB t (by rw [← hp]; exact List.mem_of_mem_filter ht)
  · show ((s'.pendingTimers.filter _).map Timer.id).Nodup
    rw [hp]
    exact List.Nodup.sublist (List.Sublist.map _ (List.filter_sublist _)) hN
  · intro t ht hk
    show s'.endTimeout = some t.id
    rw [he]
    exact hE t (by rw [← hp]; exact List.mem_of_mem_filter ht) hk
  · intro t ht hk
    exfalso
    have hmem : t ∈ s.pendingTimers := by rw [← hp]; exact List.mem_of_mem_filter ht
    have hnotin : t.id ∉ s'.visualTimeouts := by
      have := (List.mem_filter.mp ht).2
      simpa using this
    rw [hv] at hnotin
    exact hnotin (hV t hmem hk).1

/-- Arming one visual timer with a fresh id preserves the timer
invariant: the new timer's id goes into `visualTimeoutsRef` and it
belongs to the current run. -/
theorem timerInv_armVisual (s : EngineState) (h : TimerInv s) (dely : ℚ) :
    TimerInv { (armTimer s TimerKind.visual dely) with
      visualTimeouts := s.visualTimeouts ++ [s.nextTimerId] } := by
  obtain ⟨hB, hN, hE, hV⟩ := h
  refine ⟨?_, ?_, ?_, ?_⟩
  · intro t ht
    show t.id < s.nextTimerId + 1
    rcases List.mem_append.mp ht with h1 | h1
    · exact Nat.lt_succ_of_lt (hB t h1)
    · rw [List.mem_singleton.mp h1]
      exact Nat.lt_succ_self _
  · exact nodup_ids_append _ _ _ _ _ hB hN
  · intro t ht hk
    show s.endTimeout = some t.id
    rcases List.mem_append.mp ht with h1 | h1
    · exact hE t h1 hk
    · have := List.mem_singleton.mp h1
      subst this
      simp at hk
  · intro t ht hk
    rcases List.mem_append.mp ht with h1 | h1
    · obtain ⟨hid, hrun⟩ := hV t h1 hk
      exact ⟨List.mem_append_left _ hid, hrun⟩
    · have := List.mem_singleton.mp h1
      subst this
      exact ⟨List.mem_append_right _ (List.mem_singleton.mpr rfl), rfl⟩

/-- One scheduler-loop iteration preserves the timer invariant. -/
theorem timerInv_loopStep (now minTime timeScale : ℚ) (b : Bool) (s : EngineState)
    (f : EarthquakeFeature) (h : TimerInv s) :
    TimerInv (scheduleLoopStep now minTime timeScale b s f) := by
  cases b with
  | false => exact h
  | true => exact timerInv_armVisual _ h _

/-- The whole scheduling loop preserves the timer invariant. -/
theorem timerInv_foldl (now minTime timeScale : ℚ) (b : Bool) :
    ∀ (q : List EarthquakeFeature) (s : EngineState), TimerInv s →
      TimerInv (q.foldl (scheduleLoopStep now minTime timeScale b) s)
  | [], _, h => h
  | f :: q, s, h => by
      rw [List.foldl_cons]
      exact timerInv_foldl now minTime timeScale b q _
        (timerInv_loopStep now minTime timeScale b s f h)

/-- `clearEndTimer` does not change the fresh-id counter. -/
theorem clearEndTimer_nextTimerId (s : EngineState) :
    (clearEndTimer s).nextTimerId = s.nextTimerId := by
  unfold clearEndTimer
  cases s.endTimeout <;> rfl

/-- `clearEndTimer` does not change `visualTimeoutsRef`. -/
theorem clearEndTimer_visualTimeouts (s : EngineState) :
    (clearEndTimer s).visualTimeouts = s.visualTimeouts := by
  unfold clearEndTimer
  cases s.endTimeout <;> rfl

/-- `clearEndTimer` does not change the run counter. -/
theorem clearEndTimer_runCount (s : EngineState) :
    (clearEndTimer s).runCount = s.runCount := by
  unfold clearEndTimer
  cases s.endTimeout <;> rfl

/-- `clearEndTimer` only removes pending timers. -/
theorem clearEndTimer_pending_sub (s : EngineState) :
    ∀ t ∈ (clearEndTimer s).pendingTimers, t ∈ s.pendingTimers := by
  unfold clearEndTimer
  cases s.endTimeout with
  | none => exact fun t ht => ht
  | some i => exact fun t ht => List.mem_of_mem_filter ht

/-- Pending ids stay pairwise distinct across `clearEndTimer`. -/
theorem clearEndTimer_pending_nodup (s : EngineState)
    (hN : (s.pendingTimers.map Timer.id).Nodup) :
    (((clearEndTimer s).pendingTimers).map Timer.id).Nodup := by
  unfold clearEndTimer
  cases s.endTimeout with
  | none => exact hN
  | some i => exact List.Nodup.sublist (List.Sublist.map _ (List.filter_sublist _)) hN

/-- After `clearEndTimer`, no end-of-playback timer is pending: the only
pending one had the id held by `endTimeoutRef`, which was just cleared. -/
theorem clearEndTimer_noEnd (s : EngineState) (h : TimerInv s) :
    ∀ t ∈ (clearEndTimer s).pendingTimers, t.kind ≠ TimerKind.endOfPlayback := by
  obtain ⟨hB, hN, hE, hV⟩ := h
  unfold clearEndTimer
  cases he : s.endTimeout with
  | none =>
      intro t ht hk
      have := hE t ht hk
      rw [he] at this
      exact Option.noConfusion this
  | some i =>
      intro t ht hk
      have hmem := List.mem_of_mem_filter ht
      have hne : t.id ≠ i := by
        have := (List.mem_filter.mp ht).2
        simpa using this
      have := hE t hmem hk
      rw [he] at this
      exact hne (Option.some.inj this).symm

/-- The end-of-playback timer replacement at the end of `start()`
(clear the old end timer, arm a fresh one, store its id in
`endTimeoutRef`) preserves the timer invariant. -/
theorem timerInv_armEnd (s : EngineState) (h : TimerInv s) (dely : ℚ) :
    TimerInv { (armTimer (clearEndTimer s) TimerKind.endOfPlayback dely) with
      endTimeout := some (clearEndTimer s).nextTimerId } := by
  have hNoEnd := clearEndTimer_noEnd s h
  obtain ⟨hB, hN, hE, hV⟩ := h
  refine ⟨?_, ?_, ?_, ?_⟩
  · intro t ht
    show t.id < (clearEndTimer s).nextTimerId + 1
    rcases List.mem_append.mp ht with h1 | h1
    · have := hB t (clearEndTimer_pending_sub s t h1)
      rw [clearEndTimer_nextTimerId]
      omega
    · rw [List.mem_singleton.mp h1]
      exact Nat.lt_succ_self _
  · refine nodup_ids_append _ _ _ _ _ ?_ (clearEndTimer_pending_nodup s hN)
    intro t ht
    rw [clearEndTimer_nextTimerId]
    exact hB t (clearEndTimer_pending_sub s t ht)
  · intro t ht hk
    show some (clearEndTimer s).nextTimerId = some t.id
    rcases List.mem_append.mp ht with h1 | h1
    · exact absurd hk (hNoEnd t h1)
    · rw [List.mem_singleton.mp h1]
  · intro t ht hk
    rcases List.mem_append.mp ht with h1 | h1
    · have hmem := clearEndTimer_pending_sub s t h1
      obtain ⟨hid, hrun⟩ := hV t hmem hk
      refine ⟨?_, ?_⟩
      · show t.id ∈ (clearEndTimer s).visualTimeouts
        rw [clearEndTimer_visualTimeouts]
        exact hid
      · show t.run = (clearEndTimer s).runCount
        rw [clearEndTimer_runCount]
        exact hrun
    · have := List.mem_singleton.mp h1
      subst this
      simp at hk

/-- `startRun` preserves the timer invariant: it first clears the
previous run's visual timers (while bumping the run counter), arms fresh
visual timers belonging to the new run inside the loop, and finally
replaces the end-of-playback timer. -/
theorem timerInv_startRun (s : EngineState) (q : List EarthquakeFeature) (D : ℚ) (b : Bool)
    (h : TimerInv s) : TimerInv (startRun s q D b) := by
  simp only [startRun]
  refine timerInv_armEnd _ ?_ _
  refine timerInv_foldl _ _ _ b _ _ ?_
  refine timerInv_clearVisual_any s _ h ?_ ?_ ?_ ?_ <;> rfl

/-- `start()` preserves the timer invariant (the empty/absent-collection
guards leave the state untouched). -/
theorem timerInv_startF (s : EngineState) (q : Option (List EarthquakeFeature)) (D : ℚ)
    (b : Bool) (h : TimerInv s) : TimerInv (startF s q D b) := by
  cases q with
  | none => exact h
  | some quakes =>
      cases quakes with
      | nil => exact h
      | cons f q' =>
          simp only [startF, List.isEmpty_cons, Bool.false_eq_true, if_false]
          exact timerInv_startRun s (f :: q') D b h

/-- What `stop()` leaves in the host timer queue, case-split on whether
an end timer was pending. -/
theorem stopF_pendingTimers (s : EngineState) :
    (stopF s).pendingTimers =
      match s.endTimeout with
      | some i => ((s.pendingTimers.filter (fun t => decide (t.id ∉ s.visualTimeouts))).filter
          (fun t => decide (t.id ≠ i)))
      | none => s.pendingTimers.filter (fun t => decide (t.id ∉ s.visualTimeouts)) := by
  cases hc : s.ctxCreated <;> cases hd : s.drone <;> cases he : s.endTimeout <;>
    simp [stopF, clearVisualTimers, clearEndTimerAndRef, hc, hd, he]

/-- `stop()` always nulls `endTimeoutRef`. -/
theorem stopF_endTimeout (s : EngineState) : (stopF s).endTimeout = none := by
  cases hc : s.ctxCreated <;> cases hd : s.drone <;> cases he : s.endTimeout <;>
    simp [stopF, clearVisualTimers, clearEndTimerAndRef, hc, hd, he]

/-- `stop()` always empties `visualTimeoutsRef`. -/
theorem stopF_visualTimeouts (s : EngineState) : (stopF s).visualTimeouts = [] := by
  cases hc : s.ctxCreated <;> cases hd : s.drone <;> cases he : s.endTimeout <;>
    simp [stopF, clearVisualTimers, clearEndTimerAndRef, hc, hd, he]

/-- `stop()` always empties the active-voice set. -/
theorem stopF_transients (s : EngineState) : (stopF s).transients = [] := by
  cases hc : s.ctxCreated <;> cases hd : s.drone <;> cases he : s.endTimeout <;>
    simp [stopF, clearVisualTimers, clearEndTimerAndRef, hc, hd, he]

/-- Under the timer invariant, `stop()` drains the host timer queue
entirely: every pending timer is either a visual timer (its id is in
`visualTimeoutsRef`, so clearing the ref's ids removes it) or the end
timer (whose id `endTimeoutRef` holds). -/
theorem stopF_pending_empty (s : EngineState) (h : TimerInv s) :
    (stopF s).pendingTimers = [] := by
  obtain ⟨hB, hN, hE, hV⟩ := h
  rw [stopF_pendingTimers]
  cases he : s.endTimeout with
  | none =>
      rw [List.filter_eq_nil_iff]
      intro t ht
      simp only [decide_eq_true_eq, Decidable.not_not]
      cases hk : t.kind with
      | visual => exact (hV t ht hk).1
      | endOfPlayback =>
          have := hE t ht hk
          rw [he] at this
          exact Option.noConfusion this
  | some i =>
      rw [List.filter_eq_nil_iff]
      intro t ht
      have hmem : t ∈ s.pendingTimers := List.mem_of_mem_filter ht
      have hnotin : t.id ∉ s.visualTimeouts := by
        have := (List.mem_filter.mp ht).2
        simpa using this
      simp only [ne_eq, decide_not, Bool.not_eq_true', decide_eq_false_iff_not,
        Decidable.not_not]
      cases hk : t.kind with
      | visual => exact absurd (hV t hmem hk).1 hnotin
      | endOfPlayback =>
          have := hE t hmem hk
          rw [he] at this
          exact (Option.some.inj this).symm

/-- `stop()` preserves the timer invariant (it empties everything). -/
theorem timerInv_stopF (s : EngineState) (h : TimerInv s) : TimerInv (stopF s) := by
  have hp := stopF_pending_empty s h
  refine ⟨?_, ?_, ?_, ?_⟩ <;> rw [hp] <;> simp

/-- Firing the end-of-playback timer preserves the timer invariant. -/
theorem timerInv_fireEnd (s : EngineState) (i : ℕ) (h : TimerInv s) :
    TimerInv (fireEndTimeout s i) := by
  obtain ⟨hB, hN, hE, hV⟩ := h
  have f1 : (fireEndTimeout s i).pendingTimers
      = s.pendingTimers.filter (fun t => decide (t.id ≠ i)) := by
    cases hd : s.drone <;> simp [fireEndTimeout, hd]
  have f2 : (fireEndTimeout s i).nextTimerId = s.nextTimerId := by
    cases hd : s.drone <;> simp [fireEndTimeout, hd]
  have f3 : (fireEndTimeout s i).endTimeout = s.endTimeout := by
    cases hd : s.drone <;> simp [fireEndTimeout, hd]
  have f4 : (fireEndTimeout s i).visualTimeouts = s.visualTimeouts := by
    cases hd : s.drone <;> simp [fireEndTimeout, hd]
  have f5 : (fireEndTimeout s i).runCount = s.runCount := by
    cases hd : s.drone <;> simp [fireEndTimeout, hd]
  refine ⟨?_, ?_, ?_, ?_⟩
  · intro t ht
    rw [f1] at ht
    rw [f2]
    exact hB t (List.mem_of_mem_filter ht)
  · rw [f1]
    exact List.Nodup.sublist (List.Sublist.map _ (List.filter_sublist _)) hN
  · intro t ht hk
    rw [f1] at ht
    rw [f3]
    exact hE t (List.mem_of_mem_filter ht) hk
  · intro t ht hk
    rw [f1] at ht
    rw [f4, f5]
    exact hV t (List.mem_of_mem_filter ht) hk

/-- Firing a visual timer preserves the timer invariant. -/
theorem timerInv_fireVisual (s : EngineState) (i : ℕ) (h : TimerInv s) :
    TimerInv (fireVisualTimeout s i) :=
  timerInv_filterPending s _ h

/-- Every reachable engine state satisfies the timer-bookkeeping
invariant. -/
theorem reachable_timerInv (s : EngineState) (h : Reachable s) : TimerInv s := by
  induction h with
  | base =>
      refine ⟨?_, ?_, ?_, ?_⟩ <;> simp [initState]
  | tick s t _ ih => exact ih
  | startStep s q D b _ ih => exact timerInv_startF s q D b ih
  | stopStep s _ ih => exact timerInv_stopF s ih
  | fireEnd s t _ _ _ ih => exact timerInv_fireEnd s t.id ih
  | fireVisual s t _ _ _ ih => exact timerInv_fireVisual s t.id ih
  | ended s n _ ih => exact ih

/-- A duplicate-free list whose every element equals `r` has at most one
element. -/
theorem nodup_all_eq_len_le_one (l : List ℕ) (r : ℕ) (hN : l.Nodup)
    (hall : ∀ x ∈ l, x = r) : l.length ≤ 1 := by
  match l, hN, hall with
  | [], _, _ => simp
  | [a], _, _ => simp
  | a :: b :: tl, hN, hall =>
      exfalso
      have ha := hall a (by simp)
      have hb := hall b (by simp)
      rw [List.nodup_cons] at hN
      have hab : a = b := by rw [ha, hb]
      exact hN.1 (hab ▸ List.mem_cons_self b tl)

/-- Under the timer invariant at most one end-of-playback timer is
pending: they all carry the id `endTimeoutRef` holds, and pending ids are
pairwise distinct. -/
theorem timerInv_endCount (s : EngineState) (h : TimerInv s) :
    (s.pendingTimers.filter (fun t => decide (t.kind = TimerKind.endOfPlayback))).length ≤ 1 := by
  obtain ⟨hB, hN, hE, hV⟩ := h
  cases he : s.endTimeout with
  | none =>
      have hnil : s.pendingTimers.filter (fun t => decide (t.kind = TimerKind.endOfPlayback)) = [] := by
        rw [List.filter_eq_nil_iff]
        intro t ht
        simp only [decide_eq_true_eq]
        intro hk
        have := hE t ht hk
        rw [he] at this
        exact Option.noConfusion this
      rw [hnil]
      simp
  | some r =>
      have hall : ∀ x ∈ (s.pendingTimers.filter
          (fun t => decide (t.kind = TimerKind.endOfPlayback))).map Timer.id, x = r := by
        intro x hx
        obtain ⟨t, htl, rfl⟩ := List.mem_map.mp hx
        have hmem := List.mem_of_mem_filter htl
        have hk : t.kind = TimerKind.endOfPlayback := by
          have := (List.mem_filter.mp htl).2
          simpa using this
        have := hE t hmem hk
        rw [he] at this
        exact (Option.some.inj this).symm
      have hnd : ((s.pendingTimers.filter
          (fun t => decide (t.kind = TimerKind.endOfPlayback))).map Timer.id).Nodup :=
        List.Nodup.sublist (List.Sublist.map _ (List.filter_sublist _)) hN
      have := nodup_all_eq_len_le_one _ r hnd hall
      simpa using this

/-- C10: at every reachable engine state, at most one end-of-playback
timer is pending, and every pending visual timer was armed by the most
recent `start()` — each `start()` first cancels the leftover visual
timers and the old end timer before arming its own. -/
theorem C10_timer_provenance (s : EngineState) (h : Reachable s) :
    (s.pendingTimers.filter (fun t => decide (t.kind = TimerKind.endOfPlayback))).length ≤ 1 ∧
    (∀ t ∈ s.pendingTimers, t.kind = TimerKind.visual → t.run = s.runCount) := by
  have hinv := reachable_timerInv s h
  exact ⟨timerInv_endCount s hinv, fun t ht hk => (hinv.2.2.2 t ht hk).2⟩

/-- C10 witness: at the state reached by one `start()` with a visual
callback, the pending end timers number at most one and the visual timer
belongs to that run. -/
theorem C10_witness :
    ((startF initState (some [exFeature]) 60 true).pendingTimers.filter
      (fun t => decide (t.kind = TimerKind.endOfPlayback))).length ≤ 1 ∧
    (∀ t ∈ (startF initState (some [exFeature]) 60 true).pendingTimers,
      t.kind = TimerKind.visual →
        t.run = (startF initState (some [exFeature]) 60 true).runCount) :=
  C10_timer_provenance _ (Reachable.startStep initState (some [exFeature]) 60 true Reachable.base)

/-- C5: after `stop()` at any reachable state, the active-voice set is
empty and no timer remains in the host queue at all: every visual
callback scheduled by a prior `start()` and the end-of-playback timer are
cancelled, so none of them can ever fire afterwards (the firing steps
require the timer to be pending). -/
theorem C5_stop_clears (s : EngineState) (h : Reachable s) :
    (stopF s).transients = [] ∧ (stopF s).pendingTimers = [] ∧
    (stopF s).endTimeout = none ∧ (stopF s).visualTimeouts = [] := by
  have hinv := reachable_timerInv s h
  exact ⟨stopF_transients s, stopF_pending_empty s hinv, stopF_endTimeout s,
    stopF_visualTimeouts s⟩

/-- C5 witness: `stop()` right after the concrete `start()` that armed a
visual timer and the end timer clears them all. -/
theorem C5_witness :
    (stopF (startF initState (some [exFeature]) 60 true)).transients = [] ∧
    (stopF (startF initState (some [exFeature]) 60 true)).pendingTimers = [] ∧
    (stopF (startF initState (some [exFeature]) 60 true)).endTimeout = none ∧
    (stopF (startF initState (some [exFeature]) 60 true)).visualTimeouts = [] :=
  C5_stop_clears _ (Reachable.startStep initState (some [exFeature]) 60 true Reachable.base)

end EarthMusic
